import Mathlib

/-!
Shallow embedding of the MACD/RSI analytics core of `app.py`
(`calculate_macd`, `calculate_rsi`, `find_macd_crossovers`,
`calculate_price_changes`).

Prices and indicator values are modelled as exact rationals (`ℚ`); a pandas
`Series` becomes a `List ℚ` indexed by row position, and a cell that pandas
would hold as `NaN` (missing) becomes `none : Option ℚ`.  The dataframe index
(timestamps, unique and strictly increasing) is modelled by the row position
`t : ℕ` itself.
-/

namespace MacdTrader

/-- Tail of the recursive EMA `y[t] = a*x[t] + (1-a)*y[t-1]`
(`ewm(adjust=False)` semantics), given the previous smoothed value `prev`. -/
def emaFrom (a : ℚ) (prev : ℚ) : List ℚ → List ℚ
  | [] => []
  | x :: xs => (a * x + (1 - a) * prev) :: emaFrom a (a * x + (1 - a) * prev) xs

/-- Models `Series.ewm(span=s, adjust=False).mean()`: smoothing factor
`a = 2/(s+1)`, seeded with the first sample (`y[0] = x[0]`). -/
def ewm (s : ℕ) : List ℚ → List ℚ
  | [] => []
  | x :: xs => x :: emaFrom (2 / ((s : ℚ) + 1)) x xs

/-- Models `df['EMA12'] = df['Close'].ewm(span=12, adjust=False).mean()` -/
def ema12 (close : List ℚ) : List ℚ := ewm 12 close

/-- Models `df['EMA26'] = df['Close'].ewm(span=26, adjust=False).mean()` -/
def ema26 (close : List ℚ) : List ℚ := ewm 26 close

/-- Models `df['MACD'] = df['EMA12'] - df['EMA26']` -/
def macd (close : List ℚ) : List ℚ :=
  List.zipWith (fun a b => a - b) (ema12 close) (ema26 close)

/-- Models `df['Signal Line'] = df['MACD'].ewm(span=9, adjust=False).mean()` -/
def signalLine (close : List ℚ) : List ℚ := ewm 9 (macd close)

/-- Models `df['MACD Hist'] = df['MACD'] - df['Signal Line']` -/
def macdHist (close : List ℚ) : List ℚ :=
  List.zipWith (fun a b => a - b) (macd close) (signalLine close)

/-- The columns computed by `calculate_macd`, bundled. -/
structure MacdFrame where
  ema12 : List ℚ
  ema26 : List ℚ
  macd : List ℚ
  signalLine : List ℚ
  macdHist : List ℚ
deriving DecidableEq

/-- Models `calculate_macd(df)`: the five derived columns. -/
def calculate_macd (close : List ℚ) : MacdFrame :=
  { ema12 := ema12 close
    ema26 := ema26 close
    macd := macd close
    signalLine := signalLine close
    macdHist := macdHist close }

/-- Models `gain = (delta.where(delta > 0, 0)).fillna(0)` with
`delta = df['Close'].diff(1)`: entry 0 is the `fillna(0)` of the missing
first delta. -/
def gains (close : List ℚ) : List ℚ :=
  0 :: List.zipWith (fun prev cur => if cur - prev > 0 then cur - prev else 0)
    close close.tail

/-- Models `loss = (-delta.where(delta < 0, 0)).fillna(0)`. -/
def losses (close : List ℚ) : List ℚ :=
  0 :: List.zipWith (fun prev cur => if cur - prev < 0 then -(cur - prev) else 0)
    close close.tail

/-- The trailing window `rolling(window=14, min_periods=1)` sees at row `t`
the last `min (t+1) 14` samples. -/
def window14 (xs : List ℚ) (t : ℕ) : List ℚ := (xs.take (t + 1)).drop (t + 1 - 14)

/-- Models `rolling(window=14, min_periods=1).mean()` at row `t`. -/
def rollMean14 (xs : List ℚ) (t : ℕ) : ℚ :=
  (window14 xs t).sum / ((window14 xs t).length : ℚ)

/-- Models `avg_gain` at row `t`. -/
def avgGain (close : List ℚ) (t : ℕ) : ℚ := rollMean14 (gains close) t

/-- Models `avg_loss` at row `t`. -/
def avgLoss (close : List ℚ) (t : ℕ) : ℚ := rollMean14 (losses close) t

/-- Models `rs = avg_gain / avg_loss; RSI = 100 - 100/(1+rs)` under IEEE float
semantics: when `avg_loss = 0`, `rs` is `+inf` if `avg_gain > 0` (so RSI
evaluates to `100 - 0 = 100`) and `NaN` if `avg_gain = 0` (so RSI is
missing); with `avg_loss ≠ 0` the arithmetic is ordinary. -/
def rsiAt (close : List ℚ) (t : ℕ) : Option ℚ :=
  if avgLoss close t = 0 then
    (if avgGain close t = 0 then none else some 100)
  else some (100 - 100 / (1 + avgGain close t / avgLoss close t))

/-- Models `calculate_rsi(df)`: the `RSI` column. -/
def calculate_rsi (close : List ℚ) : List (Option ℚ) :=
  (List.range close.length).map (rsiAt close)

/-- Models `np.sign` on exact rationals. -/
def sign (x : ℚ) : ℤ := if x < 0 then -1 else if x = 0 then 0 else 1

/-- Models `col.apply(np.sign).diff()` evaluated at row `t` (meaningful only for
`1 ≤ t`; row 0 of the pandas diff is `NaN`). -/
def signDiffAt (xs : List ℚ) (t : ℕ) : ℤ :=
  sign (xs.getD t 0) - sign (xs.getD (t - 1) 0)

/-- The row mask `col.apply(np.sign).diff().abs() == 2`: false at row 0
(where the diff is `NaN`) and outside the frame. -/
def fires (xs : List ℚ) (t : ℕ) : Bool :=
  decide (1 ≤ t) && decide (t < xs.length) && ((signDiffAt xs t).natAbs == 2)

/-- Models `df['MACD Diff'] = df['MACD'] - df['Signal Line']` (recomputed inside
`find_macd_crossovers`). -/
def macdDiff (close : List ℚ) : List ℚ :=
  List.zipWith (fun a b => a - b) (macd close) (signalLine close)

inductive CrossType
  | bullish
  | bearish
deriving DecidableEq

inductive Trigger
  | zeroLine
  | signalLine
deriving DecidableEq

/-- One row of the `crossovers` frame, with the columns the app keeps:
`Date` (here the row position), `Close`, `MACD Value`, `Crossover Type`,
`Crossover Description`. -/
structure CrossoverEvent where
  idx : ℕ
  close : ℚ
  macdValue : ℚ
  crossType : CrossType
  trigger : Trigger
deriving DecidableEq

/-- The event record built for row `t` of the `crossovers` frame:
`Crossover Type` follows the nested `np.where` (signal-cross sign diff
tested first, then the zero-cross sign diff), and
`Crossover Description` is the zero-line text whenever the zero-cross sign
diff has absolute value 2, the signal-line text otherwise. -/
def mkEvent (close : List ℚ) (t : ℕ) : CrossoverEvent :=
  { idx := t
    close := close.getD t 0
    macdValue := (macd close).getD t 0
    crossType :=
      if signDiffAt (macdDiff close) t = 2 then CrossType.bullish
      else if signDiffAt (macdDiff close) t = -2 then CrossType.bearish
      else if signDiffAt (macd close) t = 2 then CrossType.bullish
      else CrossType.bearish
    trigger :=
      if (signDiffAt (macd close) t).natAbs = 2 then Trigger.zeroLine
      else Trigger.signalLine }

/-- Models `zero_crossovers = df[df['MACD Zero Crossover'].abs() == 2]` as the list
of selected row positions (ascending). -/
def zeroIdxs (close : List ℚ) : List ℕ :=
  (List.range close.length).filter (fun t => fires (macd close) t)

/-- Models `signal_crossovers = df[df['MACD Signal Crossover'].abs() == 2]` as the
list of selected row positions (ascending). -/
def signalIdxs (close : List ℚ) : List ℕ :=
  (List.range close.length).filter (fun t => fires (macdDiff close) t)

/-- Helper for `mergeSorted`: merges `x :: xs` into the second list, where
`f` merges `xs` into a list.  (Structured this way so both recursions are
structural.) -/
def mergeInto (x : ℕ) (xs : List ℕ) (f : List ℕ → List ℕ) : List ℕ → List ℕ
  | [] => x :: xs
  | y :: ys => if x ≤ y then x :: f (y :: ys) else y :: mergeInto x xs f ys

/-- Models `pd.concat([zero_crossovers, signal_crossovers]).sort_index()` on two
ascending row selections: a sorted merge keeping duplicates.  (Rows sharing
an index value are identical selections of the same `df` row, so the order
among equals does not matter.) -/
def mergeSorted : List ℕ → List ℕ → List ℕ
  | [], ys => ys
  | x :: xs, ys => mergeInto x xs (mergeSorted xs) ys

/-- Models `crossovers[~crossovers.index.duplicated(keep='first')]` on a frame whose
index is ascending with possible duplicates. -/
def dedupSorted : List ℕ → List ℕ
  | [] => []
  | [x] => [x]
  | x :: y :: rest =>
    if x = y then dedupSorted (y :: rest) else x :: dedupSorted (y :: rest)

/-- The row positions of the deduplicated `crossovers` frame. -/
def crossoverIdxs (close : List ℚ) : List ℕ :=
  dedupSorted (mergeSorted (zeroIdxs close) (signalIdxs close))

/-- Models `find_macd_crossovers(df)`: the returned `crossovers` frame as a list of
event records. -/
def find_macd_crossovers (close : List ℚ) : List CrossoverEvent :=
  (crossoverIdxs close).map (mkEvent close)

/-- The forward-return horizons of `calculate_price_changes`. -/
def horizons : List ℕ := [5, 14, 30, 45]

/-- Models `(df['Close'].shift(-days) - df['Close']) / df['Close'] * 100` at row
`t`: the shifted series is missing (`NaN`) once `t + days` runs past the
last row. -/
def forwardChange (close : List ℚ) (days t : ℕ) : Option ℚ :=
  if t + days < close.length then
    some ((close.getD (t + days) 0 - close.getD t 0) / close.getD t 0 * 100)
  else none

/-- A crossover row after `calculate_price_changes` added the
`{days}D Change` columns. -/
structure AnnotatedEvent extends CrossoverEvent where
  forwardReturns : List (ℕ × Option ℚ)
deriving DecidableEq

/-- Models `calculate_price_changes(df, crossovers)`: each per-horizon change
column, computed over the full frame and reindexed to the crossover rows. -/
def calculate_price_changes (close : List ℚ) (crossovers : List CrossoverEvent) :
    List AnnotatedEvent :=
  crossovers.map (fun e =>
    { toCrossoverEvent := e
      forwardReturns := horizons.map (fun d => (d, forwardChange close d e.idx)) })

/-! ### The dataframe seen as a list of named columns

`find_macd_crossovers` also writes to its argument `df` (lines 33-35 of
`app.py`).  To talk about that frame effect we model a dataframe as an
ordered association list of named columns. -/

/-- A dataframe: ordered named columns; missing cells are `none`. -/
abbrev Frame := List (String × List (Option ℚ))

/-- Models `df[name]`, defaulting to an empty column when absent. -/
def getColD (fr : Frame) (name : String) : List (Option ℚ) :=
  (fr.lookup name).getD []

/-- Cellwise subtraction; `NaN` propagates. -/
def optSub : Option ℚ → Option ℚ → Option ℚ
  | some a, some b => some (a - b)
  | _, _ => none

/-- Cellwise `np.sign`; `NaN` propagates. -/
def signO : Option ℚ → Option ℚ
  | some x => some ((sign x : ℤ) : ℚ)
  | none => none

/-- Models `col.diff()`: entry 0 is `NaN`; entry `t ≥ 1` is `col[t] - col[t-1]`. -/
def diffColO (xs : List (Option ℚ)) : List (Option ℚ) :=
  none :: List.zipWith optSub xs.tail xs

/-- Models `col.apply(np.sign).diff()` as a column. -/
def signDiffColO (xs : List (Option ℚ)) : List (Option ℚ) :=
  diffColO (xs.map signO)

/-- The in-place effect of `find_macd_crossovers` on its argument `df`
(lines 33-35 of `app.py`): three derived columns are assigned, i.e. appended
to the frame.  Nothing else in the function touches `df`: the row selections
are `.copy()`-ed and all later writes go to the separate `crossovers`
frame. -/
def find_macd_crossovers_frame (fr : Frame) : Frame :=
  fr ++ [(("MACD Diff"), List.zipWith optSub (getColD fr ("MACD")) (getColD fr ("Signal Line"))),
         (("MACD Zero Crossover"), signDiffColO (getColD fr ("MACD"))),
         (("MACD Signal Crossover"),
          signDiffColO (List.zipWith optSub (getColD fr ("MACD")) (getColD fr ("Signal Line"))))]

/-! ### Concrete inputs used to instantiate the theorems -/

/-- A price series on which the MACD crosses the zero line and the signal
line on the same row (row 2): a drop followed by a sharp recovery. -/
def bothFireInput : List ℚ := [10, 1, 100]

/-- A two-bar strictly rising price series. -/
def risingPair : List ℚ := [1, 2]

/-- A two-bar flat price series (no movement at all). -/
def flatPair : List ℚ := [1, 1]

/-- A six-bar rising price series for the forward-return horizon checks. -/
def sixBars : List ℚ := [1, 2, 3, 4, 5, 6]

/-- A crossover event placed at row 0 of `sixBars`. -/
def eventAtZero : CrossoverEvent :=
  { idx := 0
    close := 1
    macdValue := 0
    crossType := CrossType.bullish
    trigger := Trigger.zeroLine }

/-- Models `eventAtZero` after `calculate_price_changes` over `sixBars`. -/
def annotatedAtZero : AnnotatedEvent :=
  { toCrossoverEvent := eventAtZero
    forwardReturns := horizons.map (fun d => (d, forwardChange sixBars d 0)) }

/-- A two-column dataframe with the columns `find_macd_crossovers` reads. -/
def twoColFrame : Frame :=
  [(("MACD"), [some 0, some 1]), (("Signal Line"), [some 0, some 0])]

/-! ### Length and indexing facts about the derived columns -/

lemma emaFrom_length (a : ℚ) : ∀ (p : ℚ) (xs : List ℚ),
    (emaFrom a p xs).length = xs.length := by
  intro p xs
  induction xs generalizing p with
  | nil => rfl
  | cons x xs ih => simp [emaFrom, ih]

lemma ewm_length (s : ℕ) : ∀ xs : List ℚ, (ewm s xs).length = xs.length
  | [] => rfl
  | x :: xs => by simp [ewm, emaFrom_length]

lemma ema12_length (close : List ℚ) : (ema12 close).length = close.length :=
  ewm_length 12 close

lemma ema26_length (close : List ℚ) : (ema26 close).length = close.length :=
  ewm_length 26 close

lemma macd_length (close : List ℚ) : (macd close).length = close.length := by
  simp [macd, ema12_length, ema26_length]

lemma signalLine_length (close : List ℚ) :
    (signalLine close).length = close.length := by
  simp [signalLine, ewm_length, macd_length]

lemma macdDiff_length (close : List ℚ) :
    (macdDiff close).length = close.length := by
  simp [macdDiff, macd_length, signalLine_length]

lemma macdHist_length (close : List ℚ) :
    (macdHist close).length = close.length := by
  simp [macdHist, macd_length, signalLine_length]

lemma getD_zipWith (f : ℚ → ℚ → ℚ) :
    ∀ (as bs : List ℚ) (t : ℕ), t < as.length → t < bs.length →
      (List.zipWith f as bs).getD t 0 = f (as.getD t 0) (bs.getD t 0) := by
  intro as
  induction as with
  | nil => intro bs t h1 h2; simp at h1
  | cons a as ih =>
    intro bs t h1 h2
    cases bs with
    | nil => simp at h2
    | cons b bs =>
      cases t with
      | zero => rfl
      | succ t =>
        have g1 : t < as.length := by simpa using h1
        have g2 : t < bs.length := by simpa using h2
        simpa using ih bs t g1 g2

lemma getD_map_range {α : Type} (f : ℕ → α) (n t : ℕ) (d : α) (h : t < n) :
    ((List.range n).map f).getD t d = f t := by
  have hlen : t < ((List.range n).map f).length := by simpa using h
  rw [List.getD_eq_getElem _ _ hlen]
  simp [List.getElem_map, List.getElem_range]

/-! ### The EMA recursion -/

lemma emaFrom_getD_succ (a : ℚ) :
    ∀ (xs : List ℚ) (p : ℚ) (t : ℕ), t + 1 < xs.length →
      (emaFrom a p xs).getD (t + 1) 0 =
        a * xs.getD (t + 1) 0 + (1 - a) * (emaFrom a p xs).getD t 0 := by
  intro xs
  induction xs with
  | nil => intro p t h; simp at h
  | cons x xs ih =>
    intro p t h
    cases t with
    | zero =>
      cases xs with
      | nil => simp at h
      | cons y ys => rfl
    | succ t =>
      have h' : t + 1 < xs.length := by simpa using h
      simpa [emaFrom] using ih (a * x + (1 - a) * p) t h'

lemma ewm_getD_zero (s : ℕ) (xs : List ℚ) (h : xs ≠ []) :
    (ewm s xs).getD 0 0 = xs.getD 0 0 := by
  cases xs with
  | nil => exact absurd rfl h
  | cons x xs => rfl

lemma ewm_getD_succ (s : ℕ) (xs : List ℚ) (t : ℕ) (h : t + 1 < xs.length) :
    (ewm s xs).getD (t + 1) 0 =
      2 / ((s : ℚ) + 1) * xs.getD (t + 1) 0
        + (1 - 2 / ((s : ℚ) + 1)) * (ewm s xs).getD t 0 := by
  cases xs with
  | nil => simp at h
  | cons x xs =>
    cases t with
    | zero =>
      cases xs with
      | nil => simp at h
      | cons y ys => rfl
    | succ t =>
      have h' : t + 1 < xs.length := by simpa using h
      simpa [ewm] using emaFrom_getD_succ (2 / ((s : ℚ) + 1)) xs x t h'

/-! ### The concat / sort / dedup step of `find_macd_crossovers` -/

lemma mergeSorted_nil_left (ys : List ℕ) : mergeSorted [] ys = ys := rfl

lemma mergeSorted_nil_right (xs : List ℕ) : mergeSorted xs [] = xs := by
  cases xs <;> rfl

lemma mergeSorted_cons_cons (x y : ℕ) (xs ys : List ℕ) :
    mergeSorted (x :: xs) (y :: ys) =
      if x ≤ y then x :: mergeSorted xs (y :: ys)
      else y :: mergeSorted (x :: xs) ys := rfl

lemma mem_mergeSorted (a : ℕ) : ∀ (xs ys : List ℕ),
    (a ∈ mergeSorted xs ys ↔ a ∈ xs ∨ a ∈ ys)
  | [], ys => by simp [mergeSorted_nil_left]
  | x :: xs, [] => by simp [mergeSorted_nil_right]
  | x :: xs, y :: ys => by
    rw [mergeSorted_cons_cons]
    split
    · simp only [List.mem_cons, mem_mergeSorted a xs (y :: ys)]
      tauto
    · simp only [List.mem_cons, mem_mergeSorted a (x :: xs) ys]
      tauto
termination_by xs ys => xs.length + ys.length

lemma mergeSorted_cons_right (a : ℕ) (xs ys : List ℕ) (h : ∀ x ∈ xs, a < x) :
    mergeSorted xs (a :: ys) = a :: mergeSorted xs ys := by
  cases xs with
  | nil => simp [mergeSorted_nil_left]
  | cons x xs =>
    rw [mergeSorted_cons_cons]
    have hx : ¬ x ≤ a := by
      have := h x (by simp)
      omega
    simp [hx]

lemma mergeSorted_cons_left (a : ℕ) (xs ys : List ℕ) (h : ∀ y ∈ ys, a < y) :
    mergeSorted (a :: xs) ys = a :: mergeSorted xs ys := by
  cases ys with
  | nil => simp [mergeSorted_nil_right]
  | cons y ys =>
    rw [mergeSorted_cons_cons]
    have hy : a ≤ y := le_of_lt (h y (by simp))
    simp [hy]

lemma dedupSorted_cons_cons (x y : ℕ) (rest : List ℕ) :
    dedupSorted (x :: y :: rest) =
      if x = y then dedupSorted (y :: rest) else x :: dedupSorted (y :: rest) := rfl

lemma dedupSorted_cons_of_not_mem (a : ℕ) (M : List ℕ) (h : a ∉ M) :
    dedupSorted (a :: M) = a :: dedupSorted M := by
  cases M with
  | nil => rfl
  | cons b M' =>
    have hab : a ≠ b := by
      intro e
      exact h (by simp [e])
    rw [dedupSorted_cons_cons]
    simp [hab]

/-- Concatenating two row selections of the same uniquely-indexed frame,
sorting by index, and dropping duplicate index values yields the selection
by the disjunction of the two masks. -/
lemma dedupSorted_mergeSorted_filter (p q : ℕ → Bool) :
    ∀ (l : List ℕ), l.Pairwise (· < ·) →
      dedupSorted (mergeSorted (l.filter p) (l.filter q)) =
        l.filter (fun t => p t || q t) := by
  intro l hl
  induction l with
  | nil => simp [mergeSorted_nil_left, dedupSorted]
  | cons a l ih =>
    have ha : ∀ x ∈ l, a < x := (List.pairwise_cons.mp hl).1
    have hl' : l.Pairwise (· < ·) := (List.pairwise_cons.mp hl).2
    have hFp : ∀ x ∈ l.filter p, a < x := fun x hx => ha x (List.mem_filter.mp hx).1
    have hFq : ∀ x ∈ l.filter q, a < x := fun x hx => ha x (List.mem_filter.mp hx).1
    have hnotM : a ∉ mergeSorted (l.filter p) (l.filter q) := by
      intro hmem
      rcases (mem_mergeSorted a _ _).mp hmem with hm | hm
      · exact lt_irrefl a (hFp a hm)
      · exact lt_irrefl a (hFq a hm)
    cases hp : p a <;> cases hq : q a
    · simp only [List.filter_cons, hp, hq]
      simp only [Bool.false_eq_true, if_false, Bool.false_or]
      exact ih hl'
    · simp only [List.filter_cons, hp, hq]
      simp only [Bool.false_eq_true, if_false, if_true, Bool.false_or]
      rw [mergeSorted_cons_right a _ _ hFp, dedupSorted_cons_of_not_mem a _ hnotM,
        ih hl']
    · simp only [List.filter_cons, hp, hq]
      simp only [Bool.false_eq_true, if_false, if_true, Bool.true_or]
      rw [mergeSorted_cons_left a _ _ hFq, dedupSorted_cons_of_not_mem a _ hnotM,
        ih hl']
    · simp only [List.filter_cons, hp, hq]
      simp only [if_true, Bool.true_or]
      rw [mergeSorted_cons_cons, if_pos (le_refl a),
        mergeSorted_cons_right a _ _ hFp, dedupSorted_cons_cons, if_pos rfl,
        dedupSorted_cons_of_not_mem a _ hnotM, ih hl']

lemma crossoverIdxs_eq_filter (close : List ℚ) :
    crossoverIdxs close =
      (List.range close.length).filter
        (fun t => fires (macd close) t || fires (macdDiff close) t) := by
  unfold crossoverIdxs zeroIdxs signalIdxs
  exact dedupSorted_mergeSorted_filter _ _ _ (List.pairwise_lt_range _)

lemma mem_crossoverIdxs (close : List ℚ) (t : ℕ) :
    t ∈ crossoverIdxs close ↔
      t < close.length ∧
        (fires (macd close) t || fires (macdDiff close) t) = true := by
  rw [crossoverIdxs_eq_filter]
  simp [List.mem_filter, List.mem_range]

lemma crossoverIdxs_pairwise (close : List ℚ) :
    (crossoverIdxs close).Pairwise (· < ·) := by
  rw [crossoverIdxs_eq_filter]
  exact (List.pairwise_lt_range _).filter _

lemma mkEvent_idx (close : List ℚ) (t : ℕ) : (mkEvent close t).idx = t := rfl

lemma mkEvent_injective (close : List ℚ) : Function.Injective (mkEvent close) := by
  intro a b hab
  have := congrArg CrossoverEvent.idx hab
  simpa [mkEvent_idx] using this

lemma fires_elim (xs : List ℚ) (t : ℕ) (h : fires xs t = true) :
    1 ≤ t ∧ t < xs.length ∧ (signDiffAt xs t).natAbs = 2 := by
  simpa [fires, Bool.and_eq_true, decide_eq_true_eq, beq_iff_eq, and_assoc] using h

/-! ### Evaluation of the detector on `bothFireInput` -/

lemma bothFire_ema12 : ema12 bothFireInput = [10, 112 / 13, 3832 / 169] := by
  norm_num [ema12, ewm, emaFrom, bothFireInput]

lemma bothFire_ema26 : ema26 bothFireInput = [10, 28 / 3, 1300 / 81] := by
  norm_num [ema26, ewm, emaFrom, bothFireInput]

lemma bothFire_macd : macd bothFireInput = [0, -28 / 39, 90692 / 13689] := by
  norm_num [macd, bothFire_ema12, bothFire_ema26]

lemma bothFire_signal :
    signalLine bothFireInput = [0, -28 / 195, 414148 / 342225] := by
  norm_num [signalLine, bothFire_macd, ewm, emaFrom]

lemma bothFire_macdDiff :
    macdDiff bothFireInput = [0, -112 / 195, 1853152 / 342225] := by
  norm_num [macdDiff, bothFire_macd, bothFire_signal]

lemma bothFire_fires_macd_two : fires (macd bothFireInput) 2 = true := by
  norm_num [fires, signDiffAt, bothFire_macd, sign, List.getD]

lemma bothFire_fires_diff_two : fires (macdDiff bothFireInput) 2 = true := by
  norm_num [fires, signDiffAt, bothFire_macdDiff, sign, List.getD]

lemma bothFire_fires_macd_one : fires (macd bothFireInput) 1 = false := by
  norm_num [fires, signDiffAt, bothFire_macd, sign, List.getD]

lemma bothFire_fires_diff_one : fires (macdDiff bothFireInput) 1 = false := by
  norm_num [fires, signDiffAt, bothFire_macdDiff, sign, List.getD]

lemma fires_zero (xs : List ℚ) : fires xs 0 = false := by
  simp [fires]

lemma bothFire_idxs : crossoverIdxs bothFireInput = [2] := by
  rw [crossoverIdxs_eq_filter]
  have h3 : bothFireInput.length = 3 := rfl
  have r3 : List.range 3 = [0, 1, 2] := by decide
  rw [h3, r3]
  simp [List.filter, fires_zero, bothFire_fires_macd_one, bothFire_fires_diff_one,
    bothFire_fires_macd_two, bothFire_fires_diff_two]

lemma bothFire_events :
    find_macd_crossovers bothFireInput = [mkEvent bothFireInput 2] := by
  unfold find_macd_crossovers
  rw [bothFire_idxs]
  rfl

lemma bothFire_trigger : (mkEvent bothFireInput 2).trigger = Trigger.zeroLine := by
  norm_num [mkEvent, signDiffAt, bothFire_macd, sign, List.getD]

/-! ### Claims about the crossover detector -/

/-- C3: for every input series, including ones where both triggers fire at
every row, no two events in the returned crossover list share a
timestamp. -/
theorem crossover_timestamps_distinct (close : List ℚ) :
    (find_macd_crossovers close).Pairwise (fun e₁ e₂ => e₁.idx ≠ e₂.idx) := by
  unfold find_macd_crossovers
  refine List.Pairwise.map _ ?_ (crossoverIdxs_pairwise close)
  intro a b hab
  simpa [mkEvent_idx] using Nat.ne_of_lt hab

/-- C2: for `1 ≤ t < n`, an event is emitted at row `t` iff the signed
difference of `np.sign` values between rows `t-1` and `t` has absolute
value 2 for the MACD column or for the (MACD − Signal Line) column; in
particular a `0 → 0` transition (sign diff `0`) emits nothing. -/
theorem crossover_emission_iff (close : List ℚ) (t : ℕ) (h1 : 1 ≤ t)
    (h2 : t < close.length) :
    (∃ e ∈ find_macd_crossovers close, e.idx = t) ↔
      ((signDiffAt (macd close) t).natAbs = 2 ∨
        (signDiffAt (macdDiff close) t).natAbs = 2) := by
  have hmem : (∃ e ∈ find_macd_crossovers close, e.idx = t) ↔
      t ∈ crossoverIdxs close := by
    constructor
    · rintro ⟨e, he, hidx⟩
      obtain ⟨a, ha, rfl⟩ :=
        List.mem_map.mp (show e ∈ (crossoverIdxs close).map (mkEvent close) from he)
      rw [mkEvent_idx] at hidx
      exact hidx ▸ ha
    · intro ht
      exact ⟨mkEvent close t, List.mem_map_of_mem _ ht, mkEvent_idx close t⟩
  rw [hmem, mem_crossoverIdxs]
  simp [fires, macd_length, macdDiff_length, h1, h2]

/-- C2 witness: on `bothFireInput` the equivalence is meaningful at
row 2. -/
theorem crossover_emission_iff_witness :
    1 ≤ 2 ∧ 2 < bothFireInput.length ∧
      ((∃ e ∈ find_macd_crossovers bothFireInput, e.idx = 2) ↔
        ((signDiffAt (macd bothFireInput) 2).natAbs = 2 ∨
          (signDiffAt (macdDiff bothFireInput) 2).natAbs = 2)) :=
  ⟨by decide, by decide, crossover_emission_iff bothFireInput 2 (by decide) (by decide)⟩

/-- C10: no event is ever emitted at the first row of the series: both
trigger masks compare a row with its predecessor and are false at row 0,
where the pandas `diff` is `NaN`. -/
theorem no_event_at_first_row (close : List ℚ) (e : CrossoverEvent)
    (he : e ∈ find_macd_crossovers close) : e.idx ≠ 0 := by
  obtain ⟨a, ha, rfl⟩ :=
    List.mem_map.mp (show e ∈ (crossoverIdxs close).map (mkEvent close) from he)
  rw [mkEvent_idx]
  have hor := ((mem_crossoverIdxs close a).mp ha).2
  have hor' : fires (macd close) a = true ∨ fires (macdDiff close) a = true := by
    simpa using hor
  rcases hor' with hf | hf
  · have := (fires_elim _ _ hf).1
    omega
  · have := (fires_elim _ _ hf).1
    omega

/-- C10 witness: `bothFireInput` emits an event, and its row is not 0. -/
theorem no_event_at_first_row_witness :
    mkEvent bothFireInput 2 ∈ find_macd_crossovers bothFireInput ∧
      (mkEvent bothFireInput 2).idx ≠ 0 :=
  ⟨by rw [bothFire_events]; exact List.mem_singleton.mpr rfl,
    no_event_at_first_row bothFireInput (mkEvent bothFireInput 2)
      (by rw [bothFire_events]; exact List.mem_singleton.mpr rfl)⟩

/-- C1 counterexample: on `bothFireInput` both triggers fire at row 2 and
exactly one event is emitted there, but its trigger is the zero line (the
code's `Crossover Description` prefers `'MACD Crosses Zero Line'` whenever
the zero-cross mask is hot), not the signal line as the claim states. -/
theorem both_fire_reports_zero_line_cex :
    fires (macd bothFireInput) 2 = true ∧
    fires (macdDiff bothFireInput) 2 = true ∧
    (find_macd_crossovers bothFireInput).map (fun e => (e.idx, e.trigger)) =
      [(2, Trigger.zeroLine)] :=
  ⟨bothFire_fires_macd_two, bothFire_fires_diff_two, by
    rw [bothFire_events]
    simp [bothFire_trigger, mkEvent_idx]⟩

/-- C1 (amended): when both triggers fire at the same row `t`, exactly one
event is emitted for `t`; its type follows the signal-line sign diff
(`+2` bullish, `-2` bearish), but its trigger is the zero line. -/
theorem both_fire_single_event (close : List ℚ) (t : ℕ)
    (hz : fires (macd close) t = true) (hs : fires (macdDiff close) t = true) :
    (find_macd_crossovers close).count (mkEvent close t) = 1 ∧
    (∀ e ∈ find_macd_crossovers close, e.idx = t → e = mkEvent close t) ∧
    (mkEvent close t).trigger = Trigger.zeroLine ∧
    ((signDiffAt (macdDiff close) t = 2 ∧
        (mkEvent close t).crossType = CrossType.bullish) ∨
      (signDiffAt (macdDiff close) t = -2 ∧
        (mkEvent close t).crossType = CrossType.bearish)) := by
  have hzE := fires_elim _ _ hz
  have hmem : t ∈ crossoverIdxs close := by
    rw [mem_crossoverIdxs]
    refine ⟨?_, by simp [hz]⟩
    have ht := hzE.2.1
    rwa [macd_length] at ht
  have hnodup : (crossoverIdxs close).Nodup :=
    (crossoverIdxs_pairwise close).imp (fun h => Nat.ne_of_lt h)
  have hsE := fires_elim _ _ hs
  refine ⟨?_, ?_, ?_, ?_⟩
  · show ((crossoverIdxs close).map (mkEvent close)).count (mkEvent close t) = 1
    rw [List.count_map_of_injective _ _ (mkEvent_injective close),
      List.count_eq_one_of_mem hnodup hmem]
  · intro e he hidx
    obtain ⟨a, ha, rfl⟩ :=
      List.mem_map.mp (show e ∈ (crossoverIdxs close).map (mkEvent close) from he)
    rw [mkEvent_idx] at hidx
    rw [hidx]
  · simp [mkEvent, hzE.2.2]
  · have habs := hsE.2.2
    have hpm : signDiffAt (macdDiff close) t = 2 ∨
        signDiffAt (macdDiff close) t = -2 := by omega
    rcases hpm with hsd | hsd
    · exact Or.inl ⟨hsd, by simp [mkEvent, hsd]⟩
    · exact Or.inr ⟨hsd, by simp [mkEvent, hsd]⟩

/-- C1 witness: the amended classification instantiated on
`bothFireInput` at row 2. -/
theorem both_fire_single_event_witness :
    fires (macd bothFireInput) 2 = true ∧
    fires (macdDiff bothFireInput) 2 = true ∧
    ((find_macd_crossovers bothFireInput).count (mkEvent bothFireInput 2) = 1 ∧
     (∀ e ∈ find_macd_crossovers bothFireInput,
        e.idx = 2 → e = mkEvent bothFireInput 2) ∧
     (mkEvent bothFireInput 2).trigger = Trigger.zeroLine ∧
     ((signDiffAt (macdDiff bothFireInput) 2 = 2 ∧
         (mkEvent bothFireInput 2).crossType = CrossType.bullish) ∨
       (signDiffAt (macdDiff bothFireInput) 2 = -2 ∧
         (mkEvent bothFireInput 2).crossType = CrossType.bearish))) :=
  ⟨bothFire_fires_macd_two, bothFire_fires_diff_two,
    both_fire_single_event bothFireInput 2 bothFire_fires_macd_two
      bothFire_fires_diff_two⟩

/-! ### Claims about the RSI -/

lemma calculate_rsi_getD (close : List ℚ) (t : ℕ) (ht : t < close.length) :
    (calculate_rsi close).getD t none = rsiAt close t :=
  getD_map_range _ _ _ _ ht

/-- C4: at any row where the trailing average loss is 0, a strictly positive
trailing average gain yields RSI exactly 100, and a zero average gain leaves
RSI undefined; the model is total, mirroring that the float code raises no
division error (`g/0 = inf`, `0/0 = NaN`). -/
theorem rsi_degenerate_cases (close : List ℚ) (t : ℕ) (ht : t < close.length)
    (hloss : avgLoss close t = 0) :
    (0 < avgGain close t → (calculate_rsi close).getD t none = some 100) ∧
    (avgGain close t = 0 → (calculate_rsi close).getD t none = none) := by
  rw [calculate_rsi_getD close t ht]
  unfold rsiAt
  rw [if_pos hloss]
  constructor
  · intro hg
    rw [if_neg (ne_of_gt hg)]
  · intro hg
    rw [if_pos hg]

lemma risingPair_avgLoss : avgLoss risingPair 1 = 0 := by
  norm_num [avgLoss, rollMean14, window14, losses, risingPair]

lemma risingPair_avgGain : avgGain risingPair 1 = 1 / 2 := by
  norm_num [avgGain, rollMean14, window14, gains, risingPair]

/-- C4 witness: on the rising pair the degenerate branch is reached at
row 1 with positive average gain. -/
theorem rsi_degenerate_cases_witness :
    1 < risingPair.length ∧ avgLoss risingPair 1 = 0 ∧
      ((0 < avgGain risingPair 1 →
          (calculate_rsi risingPair).getD 1 none = some 100) ∧
        (avgGain risingPair 1 = 0 →
          (calculate_rsi risingPair).getD 1 none = none)) :=
  ⟨by decide, risingPair_avgLoss,
    rsi_degenerate_cases risingPair 1 (by decide) risingPair_avgLoss⟩

lemma risingPair_rsi_one : (calculate_rsi risingPair).getD 1 none = some 100 := by
  rw [calculate_rsi_getD risingPair 1 (by decide)]
  unfold rsiAt
  rw [if_pos risingPair_avgLoss, if_neg ?_]
  rw [risingPair_avgGain]
  norm_num

/-- C5 counterexample: row 1 lies inside the first 14-row RSI window of the
two-bar series `risingPair`, yet its RSI is defined (and equals 100) —
`min_periods=1` lets every indicator be computed long before 14 rows of
history exist, so the claim that all such values are left undefined is
false. -/
theorem rsi_defined_inside_first_window_cex :
    (1 : ℕ) < 14 ∧ 1 < risingPair.length ∧
      (calculate_rsi risingPair).getD 1 none = some 100 :=
  ⟨by decide, by decide, risingPair_rsi_one⟩

/-- C5 (amended): the EMA/MACD/Signal/Histogram columns are total (defined
from row 0 on, by first-sample seeding), and RSI is undefined at exactly the
rows whose trailing 14-window contains no price movement at all (always
including row 0); an undefined RSI is a missing value, never zero. -/
theorem rsi_undefined_iff_no_movement (close : List ℚ) (t : ℕ)
    (ht : t < close.length) :
    ((calculate_rsi close).getD t none = none ↔
      (avgGain close t = 0 ∧ avgLoss close t = 0)) ∧
    (ema12 close).length = close.length ∧
    (ema26 close).length = close.length ∧
    (macd close).length = close.length ∧
    (signalLine close).length = close.length ∧
    (macdHist close).length = close.length := by
  refine ⟨?_, ema12_length close, ema26_length close, macd_length close,
    signalLine_length close, macdHist_length close⟩
  rw [calculate_rsi_getD close t ht]
  unfold rsiAt
  by_cases hl : avgLoss close t = 0
  · by_cases hg : avgGain close t = 0
    · simp [hl, hg]
    · simp [hl, hg]
  · simp [hl]

/-- C5 witness: the amended statement instantiated on the flat pair at
row 1, where there is no movement and RSI is indeed undefined. -/
theorem rsi_undefined_iff_no_movement_witness :
    1 < flatPair.length ∧
      (((calculate_rsi flatPair).getD 1 none = none ↔
          (avgGain flatPair 1 = 0 ∧ avgLoss flatPair 1 = 0)) ∧
        (ema12 flatPair).length = flatPair.length ∧
        (ema26 flatPair).length = flatPair.length ∧
        (macd flatPair).length = flatPair.length ∧
        (signalLine flatPair).length = flatPair.length ∧
        (macdHist flatPair).length = flatPair.length) :=
  ⟨by decide, rsi_undefined_iff_no_movement flatPair 1 (by decide)⟩

/-! ### Claims about the forward-return annotation -/

lemma forwardChange_none_iff (close : List ℚ) (d t : ℕ) :
    forwardChange close d t = none ↔ close.length ≤ t + d := by
  unfold forwardChange
  split_ifs with h
  · exact iff_of_false (by simp) (by omega)
  · exact iff_of_true rfl (by omega)

lemma forwardChange_of_lt (close : List ℚ) (d t : ℕ) (h : t + d < close.length) :
    forwardChange close d t =
      some ((close.getD (t + d) 0 - close.getD t 0) / close.getD t 0 * 100) := by
  unfold forwardChange
  rw [if_pos h]

/-- C6: for every annotated event and horizon `h ∈ {5,14,30,45}`, the
forward return is missing iff fewer than `h` rows remain after the event
row, and otherwise equals `(close[t+h] - close[t]) / close[t] * 100`
exactly. -/
theorem forward_returns_spec (close : List ℚ) (crossovers : List CrossoverEvent)
    (a : AnnotatedEvent) (ha : a ∈ calculate_price_changes close crossovers)
    (d : ℕ) (hd : d ∈ horizons) :
    (a.forwardReturns.lookup d = some none ↔ close.length ≤ a.idx + d) ∧
    (a.idx + d < close.length →
      a.forwardReturns.lookup d =
        some (some ((close.getD (a.idx + d) 0 - close.getD a.idx 0) /
          close.getD a.idx 0 * 100))) := by
  unfold calculate_price_changes at ha
  obtain ⟨e, he, rfl⟩ := List.mem_map.mp ha
  have hlook :
      (horizons.map (fun d => (d, forwardChange close d e.idx))).lookup d =
        some (forwardChange close d e.idx) := by
    have hd' : d = 5 ∨ d = 14 ∨ d = 30 ∨ d = 45 := by
      simpa [horizons] using hd
    rcases hd' with rfl | rfl | rfl | rfl <;> rfl
  constructor
  · show (horizons.map (fun d => (d, forwardChange close d e.idx))).lookup d =
      some none ↔ close.length ≤ e.idx + d
    rw [hlook, Option.some_inj]
    exact forwardChange_none_iff close d e.idx
  · intro h
    show (horizons.map (fun d => (d, forwardChange close d e.idx))).lookup d =
      some (some _)
    rw [hlook, forwardChange_of_lt close d e.idx h]

/-- C6 witness: the event at row 0 of the six-bar series, at horizon 5
(which is in range: row 5 exists). -/
theorem forward_returns_spec_witness :
    annotatedAtZero ∈ calculate_price_changes sixBars [eventAtZero] ∧
    5 ∈ horizons ∧
      ((annotatedAtZero.forwardReturns.lookup 5 = some none ↔
          sixBars.length ≤ annotatedAtZero.idx + 5) ∧
        (annotatedAtZero.idx + 5 < sixBars.length →
          annotatedAtZero.forwardReturns.lookup 5 =
            some (some ((sixBars.getD (annotatedAtZero.idx + 5) 0 -
              sixBars.getD annotatedAtZero.idx 0) /
                sixBars.getD annotatedAtZero.idx 0 * 100)))) :=
  ⟨List.mem_singleton.mpr rfl, by decide,
    forward_returns_spec sixBars [eventAtZero] annotatedAtZero
      (List.mem_singleton.mpr rfl) 5 (by decide)⟩

/-! ### Claims about the EMA / MACD columns -/

/-- C7: EMA12 and EMA26 follow the recursive EMA over the close price with
smoothing factors `2/13` and `2/27` seeded with the first close, and the
signal line follows the same recursion over the MACD column with factor
`2/10` seeded with `MACD[0]`. -/
theorem ema_recursion_spec (close : List ℚ) (hne : close ≠ []) (t : ℕ)
    (ht : t + 1 < close.length) :
    (ema12 close).getD 0 0 = close.getD 0 0 ∧
    (ema26 close).getD 0 0 = close.getD 0 0 ∧
    (signalLine close).getD 0 0 = (macd close).getD 0 0 ∧
    (ema12 close).getD (t + 1) 0 =
      2 / 13 * close.getD (t + 1) 0 + (1 - 2 / 13) * (ema12 close).getD t 0 ∧
    (ema26 close).getD (t + 1) 0 =
      2 / 27 * close.getD (t + 1) 0 + (1 - 2 / 27) * (ema26 close).getD t 0 ∧
    (signalLine close).getD (t + 1) 0 =
      2 / 10 * (macd close).getD (t + 1) 0 +
        (1 - 2 / 10) * (signalLine close).getD t 0 := by
  have hm : macd close ≠ [] := by
    intro h0
    apply hne
    have hl := macd_length close
    rw [h0] at hl
    exact List.length_eq_zero.mp hl.symm
  have htm : t + 1 < (macd close).length := by
    rw [macd_length]
    exact ht
  refine ⟨ewm_getD_zero 12 close hne, ewm_getD_zero 26 close hne,
    ewm_getD_zero 9 (macd close) hm, ?_, ?_, ?_⟩
  · have h := ewm_getD_succ 12 close t ht
    have e : (2 : ℚ) / ((12 : ℕ) + 1) = 2 / 13 := by norm_num
    rw [e] at h
    exact h
  · have h := ewm_getD_succ 26 close t ht
    have e : (2 : ℚ) / ((26 : ℕ) + 1) = 2 / 27 := by norm_num
    rw [e] at h
    exact h
  · have h := ewm_getD_succ 9 (macd close) t htm
    have e : (2 : ℚ) / ((9 : ℕ) + 1) = 2 / 10 := by norm_num
    rw [e] at h
    exact h

/-- C7 witness: the recursion instantiated on the rising pair at `t = 0`. -/
theorem ema_recursion_spec_witness :
    risingPair ≠ [] ∧ 0 + 1 < risingPair.length ∧
      ((ema12 risingPair).getD 0 0 = risingPair.getD 0 0 ∧
       (ema26 risingPair).getD 0 0 = risingPair.getD 0 0 ∧
       (signalLine risingPair).getD 0 0 = (macd risingPair).getD 0 0 ∧
       (ema12 risingPair).getD (0 + 1) 0 =
         2 / 13 * risingPair.getD (0 + 1) 0 +
           (1 - 2 / 13) * (ema12 risingPair).getD 0 0 ∧
       (ema26 risingPair).getD (0 + 1) 0 =
         2 / 27 * risingPair.getD (0 + 1) 0 +
           (1 - 2 / 27) * (ema26 risingPair).getD 0 0 ∧
       (signalLine risingPair).getD (0 + 1) 0 =
         2 / 10 * (macd risingPair).getD (0 + 1) 0 +
           (1 - 2 / 10) * (signalLine risingPair).getD 0 0) :=
  ⟨by decide, by decide, ema_recursion_spec risingPair (by decide) 0 (by decide)⟩

/-- C8: at every row, `MACD = EMA12 - EMA26` and
`MACD Hist = MACD - Signal Line`. -/
theorem macd_hist_identities (close : List ℚ) (t : ℕ) (ht : t < close.length) :
    (macd close).getD t 0 = (ema12 close).getD t 0 - (ema26 close).getD t 0 ∧
    (macdHist close).getD t 0 =
      (macd close).getD t 0 - (signalLine close).getD t 0 := by
  constructor
  · exact getD_zipWith _ _ _ t (by rw [ema12_length]; exact ht)
      (by rw [ema26_length]; exact ht)
  · exact getD_zipWith _ _ _ t (by rw [macd_length]; exact ht)
      (by rw [signalLine_length]; exact ht)

/-- C8 witness: the identities instantiated on the rising pair at row 1. -/
theorem macd_hist_identities_witness :
    1 < risingPair.length ∧
      ((macd risingPair).getD 1 0 =
          (ema12 risingPair).getD 1 0 - (ema26 risingPair).getD 1 0 ∧
        (macdHist risingPair).getD 1 0 =
          (macd risingPair).getD 1 0 - (signalLine risingPair).getD 1 0) :=
  ⟨by decide, macd_hist_identities risingPair 1 (by decide)⟩

/-! ### Claims about the detector's frame effect -/

lemma lookup_append_of_mem {β : Type} (l₁ l₂ : List (String × β)) (name : String)
    (h : name ∈ l₁.map Prod.fst) :
    (l₁ ++ l₂).lookup name = l₁.lookup name := by
  induction l₁ with
  | nil => simp at h
  | cons kv l₁ ih =>
    obtain ⟨k, v⟩ := kv
    by_cases hk : name = k
    · subst hk
      simp [List.lookup]
    · have hbeq : (name == k) = false := beq_eq_false_iff_ne.mpr hk
      have h' : name ∈ l₁.map Prod.fst := by
        simp only [List.map_cons, List.mem_cons] at h
        rcases h with h | h
        · exact absurd h hk
        · exact h
      simp [List.lookup, hbeq, ih h']

/-- C9 counterexample: the detector does not leave its input frame
unchanged — on a two-column frame it returns a five-column frame. -/
theorem detector_mutates_frame_cex :
    find_macd_crossovers_frame twoColFrame ≠ twoColFrame := by
  intro h
  have hlen := congrArg List.length h
  simp [find_macd_crossovers_frame, twoColFrame] at hlen

/-- C9 (amended): the detector appends exactly three derived columns
(`MACD Diff`, `MACD Zero Crossover`, `MACD Signal Crossover`) to the
frame; every pre-existing column keeps its value, and no column is
removed. -/
theorem detector_appends_three_columns (fr : Frame) (name : String)
    (h : name ∈ fr.map Prod.fst) :
    (find_macd_crossovers_frame fr).lookup name = fr.lookup name ∧
    (find_macd_crossovers_frame fr).map Prod.fst =
      fr.map Prod.fst ++
        [("MACD Diff"), ("MACD Zero Crossover"), ("MACD Signal Crossover")] := by
  constructor
  · exact lookup_append_of_mem fr _ name h
  · simp [find_macd_crossovers_frame]

/-- C9 witness: the amended frame effect instantiated on the two-column
frame at the `MACD` column. -/
theorem detector_appends_three_columns_witness :
    ("MACD") ∈ twoColFrame.map Prod.fst ∧
      ((find_macd_crossovers_frame twoColFrame).lookup ("MACD") =
          twoColFrame.lookup ("MACD") ∧
        (find_macd_crossovers_frame twoColFrame).map Prod.fst =
          twoColFrame.map Prod.fst ++
            [("MACD Diff"), ("MACD Zero Crossover"), ("MACD Signal Crossover")]) :=
  ⟨by decide, detector_appends_three_columns twoColFrame ("MACD") (by decide)⟩

end MacdTrader
